import Mathlib

/-!
Verification development for the BinkAI n8n agent node
(`src/nodes/BinkAgentNode/BinkAgentNode.node.ts`).

The node's `execute` method is embedded shallowly: JavaScript runtime values
are modelled by `JsValue`, responses by association lists of fields, thrown
errors by `Except JsError`, and the per-item driver loop by explicit state
passing that also records the trace of agent-lifecycle events
(construction, plugin registration, execute calls).
-/

/-- A JavaScript runtime value, as far as the node's logic inspects one:
`undefined`, `null`, booleans, (integer) numbers, strings, arrays and
plain objects (ordered field lists, as JS objects preserve insertion order). -/
inductive JsValue where
  | undefined
  | null
  | bool (b : Bool)
  | num (n : Int)
  | str (s : String)
  | arr (elems : List JsValue)
  | obj (fields : List (String × JsValue))
deriving Repr

/-- The field list of a JS object, e.g. an agent response. -/
abbrev Fields := List (String × JsValue)

/-- First-match lookup of a key in an object's field list (JS property read
on an object whose own keys are the list's keys). -/
def lookupField : Fields → String → Option JsValue
  | [], _ => none
  | (k', v) :: rest, k => if k' = k then some v else lookupField rest k

/-- JS property assignment `o[k] = v`: replaces the value at an existing key
in place, otherwise appends the key at the end (JS insertion order). -/
def setField : Fields → String → JsValue → Fields
  | [], k, v => [(k, v)]
  | (k', v') :: rest, k, v =>
    if k' = k then (k, v) :: rest else (k', v') :: setField rest k v

/-- JS `x === undefined` test on a value. -/
def jsIsUndefined : JsValue → Bool
  | .undefined => true
  | _ => false

/-- JS nullish test (`null` or `undefined`), as used by the `??` operator. -/
def jsIsNullish : JsValue → Bool
  | .undefined => true
  | .null => true
  | _ => false

/-- JS truthiness of a string: the empty string is falsy, as used by `||`. -/
def jsStringOr (x : Option String) (fallback : String) : String :=
  match x with
  | none => fallback
  | some s => if s = "" then fallback else s

/-- Optional-chained property access `v?.k`: `undefined` on nullish receivers
and on non-objects; on objects, the property's value or `undefined` when the
key is missing. `none` plays the role of JS `undefined` here so that `??`
(see `unwrapOutput`) can distinguish a missing key from a `null`-valued one. -/
def jsGetProp : JsValue → String → Option JsValue
  | .obj fields, k => lookupField fields k
  | _, _ => none

/-- JS property read on a response object: missing keys read as `undefined`. -/
def jsGetField (resp : Fields) (k : String) : JsValue :=
  (lookupField resp k).getD .undefined

/- ------------------------------------------------------------------ -/
/- A JSON parser, modelling `jsonParse` from `n8n-workflow` (which wraps
   `JSON.parse` and throws on failure).  The model covers the JSON
   fragment the node's contract exercises: `null`, booleans, integer
   numbers, strings with simple escapes, arrays and objects. -/

/-- Skips JSON whitespace. -/
def skipWs : List Char → List Char
  | [] => []
  | c :: rest =>
    if c = ' ' ∨ c = '\t' ∨ c = '\n' ∨ c = '\r' then skipWs rest else c :: rest

/-- Matches a fixed literal (`null`, `true`, `false`) and returns the rest. -/
def stripLit : List Char → List Char → Option (List Char)
  | [], s => some s
  | _ :: _, [] => none
  | l :: ls, c :: s => if c = l then stripLit ls s else none

/-- Decodes a single JSON string escape character: `\n`, `\t` and `\r`
decode to their control characters, while a quote, backslash or slash
decodes to itself. -/
def escapeChar (e : Char) : Option Char :=
  if e = 'n' then some '\n'
  else if e = 't' then some '\t'
  else if e = 'r' then some '\r'
  else if e = '"' ∨ e = '\\' ∨ e = '/' then some e
  else none

/-- Parses the body of a JSON string after the opening quote, returning the
decoded characters and the rest of the input after the closing quote. -/
def parseStringChars : List Char → Option (List Char × List Char)
  | [] => none
  | '"' :: rest => some ([], rest)
  | '\\' :: rest =>
    match rest with
    | [] => none
    | e :: rest2 =>
      match escapeChar e with
      | none => none
      | some c =>
        match parseStringChars rest2 with
        | none => none
        | some (cs, r) => some (c :: cs, r)
  | c :: rest =>
    match parseStringChars rest with
    | none => none
    | some (cs, r) => some (c :: cs, r)

/-- Accumulates a run of decimal digits. -/
def parseDigitsAux : List Char → Nat → Nat × List Char
  | [], acc => (acc, [])
  | c :: rest, acc =>
    if c.isDigit then parseDigitsAux rest (acc * 10 + (c.toNat - '0'.toNat))
    else (acc, c :: rest)

/-- Parses a JSON integer number token (optional minus sign, digits). -/
def parseNumberToken : List Char → Option (JsValue × List Char)
  | '-' :: c :: rest =>
    if c.isDigit then
      let p := parseDigitsAux (c :: rest) 0
      some (.num (-(p.1 : Int)), p.2)
    else none
  | c :: rest =>
    if c.isDigit then
      let p := parseDigitsAux (c :: rest) 0
      some (.num (p.1 : Int), p.2)
    else none
  | [] => none

mutual

/-- Parses one JSON value; `fuel` bounds the recursion depth. -/
def parseJsonValue : Nat → List Char → Option (JsValue × List Char)
  | 0, _ => none
  | fuel + 1, s =>
    match skipWs s with
    | [] => none
    | c :: rest =>
      if c = 'n' then (stripLit ['u', 'l', 'l'] rest).map (fun r => (JsValue.null, r))
      else if c = 't' then (stripLit ['r', 'u', 'e'] rest).map (fun r => (JsValue.bool true, r))
      else if c = 'f' then
        (stripLit ['a', 'l', 's', 'e'] rest).map (fun r => (JsValue.bool false, r))
      else if c = '"' then
        (parseStringChars rest).map (fun p => (JsValue.str (String.mk p.1), p.2))
      else if c = '[' then
        (parseArrayItems fuel true rest).map (fun p => (JsValue.arr p.1, p.2))
      else if c = '\x7b' then
        (parseObjectItems fuel true rest).map (fun p => (JsValue.obj p.1, p.2))
      else parseNumberToken (c :: rest)

/-- Parses the items of a JSON array after the opening bracket; `first` is
true before the first item (so that the empty array is accepted but a
trailing comma is not). -/
def parseArrayItems : Nat → Bool → List Char → Option (List JsValue × List Char)
  | 0, _, _ => none
  | fuel + 1, first, s =>
    match skipWs s with
    | ']' :: rest => if first then some ([], rest) else none
    | s' =>
      match parseJsonValue fuel s' with
      | none => none
      | some (v, r) =>
        match skipWs r with
        | ',' :: r2 =>
          match parseArrayItems fuel false r2 with
          | none => none
          | some (vs, r3) => some (v :: vs, r3)
        | ']' :: r2 => some ([v], r2)
        | _ => none

/-- Parses the members of a JSON object after the opening brace; `first` is
true before the first member. -/
def parseObjectItems :
    Nat → Bool → List Char → Option (List (String × JsValue) × List Char)
  | 0, _, _ => none
  | fuel + 1, first, s =>
    match skipWs s with
    | '\x7d' :: rest => if first then some ([], rest) else none
    | '"' :: rest =>
      match parseStringChars rest with
      | none => none
      | some (keyChars, r1) =>
        match skipWs r1 with
        | ':' :: r2 =>
          match parseJsonValue fuel r2 with
          | none => none
          | some (v, r3) =>
            match skipWs r3 with
            | ',' :: r4 =>
              match parseObjectItems fuel false r4 with
              | none => none
              | some (fs, r5) => some ((String.mk keyChars, v) :: fs, r5)
            | '\x7d' :: r4 => some ([(String.mk keyChars, v)], r4)
            | _ => none
        | _ => none
    | _ => none

end

/-- Models `jsonParse` from `n8n-workflow` on a string: parse one JSON value
and require the input to be fully consumed; `none` models the throw on
malformed input. -/
def jsonParse (s : String) : Option JsValue :=
  match parseJsonValue (2 * s.length + 2) s.data with
  | none => none
  | some (v, rest) =>
    match skipWs rest with
    | [] => some v
    | _ => none

/- ------------------------------------------------------------------ -/
/- Output normalization (source lines 357-373). -/

/-- The agent mode selected by the node's `agent` parameter
(`agentTypeProperty` offers exactly these two options). -/
inductive AgentMode where
  | toolsAgent
  | planAndExecuteAgent
deriving DecidableEq, Repr

/-- A thrown JS error, reduced to the `message` the driver inspects. -/
structure JsError where
  message : String
deriving DecidableEq, Repr

/-- Message of the error thrown by `jsonParse` on malformed input. -/
def parseFailureMessage : String := "Failed to parse JSON"

/-- Message of the `NodeOperationError` thrown when the prompt input is
`undefined` (source line 345). -/
def textEmptyMessage : String := "The \"text\" parameter is empty."

/-- The fixed bookkeeping field list passed to `omit` (source lines 366-372). -/
def bookkeepingFields : List String :=
  ["system_message", "formatting_instructions", "input", "chat_history", "agent_scratchpad"]

/-- Models lodash `omit(response, ...keys)`: a copy of the object without
the listed keys, remaining fields in their original order. -/
def omitFields (fields : Fields) (keys : List String) : Fields :=
  fields.filter (fun kv => !(keys.contains kv.1))

/-- Models `jsonParse(response.output as string)` (source lines 358-360): the
output field is a string under the node's contract and is parsed as JSON;
the primitive values `JSON.parse` accepts after coercion are kept; `undefined`
(`JSON.parse(undefined)` throws) and non-primitive values are modelled as
parse failures. -/
def jsonParseOutput : JsValue → Option JsValue
  | .str s => jsonParse s
  | .num n => some (.num n)
  | .bool b => some (.bool b)
  | .null => some .null
  | _ => none

/-- Models `parsedOutput?.output ?? parsedOutput` (source line 361): if the
parsed structure has a non-nullish `output` property, that property's value;
otherwise the whole parsed structure. -/
def unwrapOutput (parsed : JsValue) : JsValue :=
  match jsGetProp parsed "output" with
  | none => parsed
  | some v => if jsIsNullish v then parsed else v

/-- The output-normalization step of `execute` (source lines 357-373):
when an output parser is connected, re-parse `response.output`, unwrap the
`output` envelope and write it back; then strip the bookkeeping fields with
`omit`.  `typeAgent` is in scope in `execute` but the normalization does not
consult it. -/
def normalizeResponse (typeAgent : AgentMode) (outputParserActive : Bool)
    (resp : Fields) : Except JsError Fields :=
  if outputParserActive then
    match jsonParseOutput (jsGetField resp "output") with
    | none => .error (JsError.mk parseFailureMessage)
    | some parsed =>
      .ok (omitFields (setField resp "output" (unwrapOutput parsed)) bookkeepingFields)
  else
    .ok (omitFields resp bookkeepingFields)

/- ------------------------------------------------------------------ -/
/- Credentials, wallet and networks (source lines 277-315). -/

/-- The `binkaiCredentialsApi` credential fields the node reads; each may be
absent (`undefined`) in the stored credential object. -/
structure Credentials where
  bnbRpcUrl : Option String
  ethRpcUrl : Option String
  solRpcUrl : Option String
  mnemonic : Option String
deriving DecidableEq, Repr

/-- A chain symbol of the hard-coded `RPC_URLS` mapping. -/
inductive Chain where
  | BNB
  | ETH
  | SOL
deriving DecidableEq, Repr

/-- The `RPC_URLS` object built from credentials (source lines 280-284);
the `as string` casts do not change absent values, so each entry may still
be `undefined`. -/
structure RpcUrls where
  bnb : Option String
  eth : Option String
  sol : Option String
deriving DecidableEq, Repr

/-- Builds `RPC_URLS` from the credential object (source lines 280-284). -/
def credRpcUrls (c : Credentials) : RpcUrls :=
  ⟨c.bnbRpcUrl, c.ethRpcUrl, c.solRpcUrl⟩

/-- The fixed placeholder seed phrase used when the credential store supplies
no usable mnemonic (source line 311). -/
def defaultSeedPhrase : String :=
  "test test test test test test test test test test test test"

/-- The wallet constructor arguments (source lines 307-315). -/
structure Wallet where
  seedPhrase : String
  index : Nat
deriving DecidableEq, Repr

/-- Models the wallet construction (source lines 307-315): the seed phrase is
`baseCredentials.mnemonic || 'test test ...'` — JS `||`, so both an absent
and an empty-string mnemonic fall back to the placeholder. -/
def buildWallet (mnemonic : Option String) : Wallet :=
  { seedPhrase := jsStringOr mnemonic defaultSeedPhrase, index := 0 }

/-- A per-chain RPC acceptance step of the networks-config builder.
Modelled from the spec: `getNetworksConfig` lives in `src/utils/networks.ts`,
which is not among the provided sources; per spec §4.2 the builder validates
that every supplied RPC URL is a non-empty string before acceptance, and a
chain whose URL is missing is simply omitted from the config. -/
def acceptChain (c : Chain) (u : Option String) :
    Except JsError (List (Chain × String)) :=
  match u with
  | none => .ok []
  | some s => if s = "" then .error (JsError.mk "Invalid RPC URL") else .ok [(c, s)]

/-- Models `getNetworksConfig(RPC_URLS)` (source line 305).
Modelled from the spec: the implementation in `src/utils/networks.ts` is not
among the provided sources; per spec §4.2 it validates every supplied RPC URL
(non-empty string) at build time and defers missing-URL reporting to the time
a plugin requiring that chain is exercised. -/
def getNetworksConfig (urls : RpcUrls) : Except JsError (List (Chain × String)) := do
  let b ← acceptChain .BNB urls.bnb
  let e ← acceptChain .ETH urls.eth
  let s ← acceptChain .SOL urls.sol
  return b ++ e ++ s

/-- Looks a chain up in the accepted networks config. -/
def findChainRpc : List (Chain × String) → Chain → Option String
  | [], _ => none
  | (c', u) :: rest, c => if c' = c then some u else findChainRpc rest c

/-- Exercising a plugin that requires a chain's RPC.
Modelled from the spec: per spec §4.2 a missing URL for a chain a plugin
requires is reported as a deferred capability error at the time that plugin
is exercised, not eagerly at build time. -/
def exerciseChain (cfg : List (Chain × String)) (c : Chain) :
    Except JsError String :=
  match findChainRpc cfg c with
  | some u => .ok u
  | none => .error (JsError.mk "No RPC URL configured for requested chain")

/-- Whether the networks-config build of an item succeeds for the given
credentials. -/
def netBuildOk (creds : Credentials) : Bool :=
  match getNetworksConfig (credRpcUrls creds) with
  | .ok _ => true
  | .error _ => false

/- ------------------------------------------------------------------ -/
/- Tools and plugins (source lines 275, 286-292). -/

/-- One element of the `toolsWithPlugins` array returned by `getTools`:
a tool paired with an optional plugin (`plugin?: any`); `JsValue.undefined`
models an absent plugin. -/
structure ToolWithPlugin where
  tool : JsValue
  plugin : JsValue

/-- Models the derivation loop and compaction (source lines 286-292):
both views are built by pushing in discovery order, then the plugin list is
compacted with `plugins.filter(plugin => plugin !== undefined)`. -/
def deriveToolsAndPlugins (tws : List ToolWithPlugin) : List JsValue × List JsValue :=
  let tools := tws.foldl (fun acc t => acc ++ [t.tool]) []
  let plugins := tws.foldl (fun acc t => acc ++ [t.plugin]) []
  (tools, plugins.filter (fun p => !(jsIsUndefined p)))

/-- The compacted plugins-to-register list (source line 292). -/
def derivePlugins (tws : List ToolWithPlugin) : List JsValue :=
  (deriveToolsAndPlugins tws).2

/- ------------------------------------------------------------------ -/
/- The per-item driver loop (source lines 293-387). -/

/-- The memory collaborator returned by `getOptionalMemory`, reduced to what
the driver observes of it: `loadMemoryVariables({})` returns its variables. -/
structure MemoryHandle where
  vars : JsValue

/-- Models `memory.loadMemoryVariables({})` (source line 350). -/
def loadMemoryVariables (m : MemoryHandle) : JsValue := m.vars

/-- The per-item environment supplied by the host collaborators: the resolved
memory handle (`getOptionalMemory`), the resolved prompt input
(`getPromptInputByType`, `none` models `undefined`), and the outcome of the
external `binkAgent.execute` call for this item (a response object, or a
thrown error). -/
structure ItemEnv where
  memory : Option MemoryHandle
  input : Option String
  execResult : Except JsError Fields

/-- An observable agent-lifecycle event of the driver loop, tagged with the
index of the item whose `N8nBinkAgent` instance it concerns:
`construct` is `new N8nBinkAgent(...)` (line 317), `register` is
`binkAgent.registerPlugin(plugin)` (line 334), and `execute` is
`binkAgent.execute(input[, chatHistory])` (lines 351/353), recording its
arguments. -/
inductive AgentEvent where
  | construct (item : Nat)
  | register (item : Nat) (plugin : JsValue)
  | execute (item : Nat) (input : String) (chatHistory : Option JsValue)

/-- The events of the construction-and-registration phase of one item
(source lines 317-335): one `construct`, then one `register` per plugin of
the compacted list, in order. -/
def setupTrace (tws : List ToolWithPlugin) (idx : Nat) : List AgentEvent :=
  AgentEvent.construct idx :: (derivePlugins tws).map (AgentEvent.register idx)

/-- Processing of one input item inside the `try` block (source lines
294-375): build the networks config (may throw), the wallet, construct the
agent, register every compacted plugin, resolve the prompt input (throwing a
`NodeOperationError` when it is `undefined`), call `execute` with the loaded
memory variables as second argument only when memory is connected, then
normalize the response.  Returns the recorded event trace and either the
normalized `json` payload or the thrown error. -/
def processItem (typeAgent : AgentMode) (outputParserActive : Bool)
    (creds : Credentials) (tws : List ToolWithPlugin) (idx : Nat)
    (env : ItemEnv) : List AgentEvent × Except JsError Fields :=
  match getNetworksConfig (credRpcUrls creds) with
  | .error e => ([], .error e)
  | .ok _ =>
    match env.input with
    | none => (setupTrace tws idx, .error (JsError.mk textEmptyMessage))
    | some input =>
      let chatHistory := env.memory.map loadMemoryVariables
      let trace := setupTrace tws idx ++ [AgentEvent.execute idx input chatHistory]
      match env.execResult with
      | .error e => (trace, .error e)
      | .ok resp => (trace, normalizeResponse typeAgent outputParserActive resp)

/-- Models `error.message || 'An error occurred'` (source line 380). -/
def errorMessageOrDefault (e : JsError) : String :=
  jsStringOr (some e.message) "An error occurred"

/-- The `json` payload pushed for a failed item (source lines 379-382). -/
def errorJson (e : JsError) : Fields :=
  [("error", JsValue.str (errorMessageOrDefault e))]

/-- One entry pushed onto `returnData`: its `json` payload, and `pairedItem`
(set only on the error path, source line 381). -/
structure ItemResult where
  json : Fields
  pairedItem : Option Nat

/-- The item loop of `execute` (source lines 293-387), started at item index
`idx`: on success push the normalized payload; on a thrown error, if
`continueOnFail()` push `(error: message)` for that item and continue with
the next item, otherwise re-raise, aborting the batch.  Also accumulates the
agent-lifecycle event trace. -/
def runBatchAux (cof : Bool) (typeAgent : AgentMode) (outputParserActive : Bool)
    (creds : Credentials) (tws : List ToolWithPlugin) :
    Nat → List ItemEnv → List AgentEvent × Except JsError (List ItemResult)
  | _, [] => ([], .ok [])
  | idx, env :: rest =>
    let step := processItem typeAgent outputParserActive creds tws idx env
    match step.2 with
    | .ok json =>
      let tail := runBatchAux cof typeAgent outputParserActive creds tws (idx + 1) rest
      (step.1 ++ tail.1, tail.2.map (fun out => ⟨json, none⟩ :: out))
    | .error e =>
      if cof then
        let tail := runBatchAux cof typeAgent outputParserActive creds tws (idx + 1) rest
        (step.1 ++ tail.1, tail.2.map (fun out => ⟨errorJson e, some idx⟩ :: out))
      else (step.1, .error e)

/-- The whole batch, starting at item index 0. -/
def runBatch (cof : Bool) (typeAgent : AgentMode) (outputParserActive : Bool)
    (creds : Credentials) (tws : List ToolWithPlugin) (envs : List ItemEnv) :
    List AgentEvent × Except JsError (List ItemResult) :=
  runBatchAux cof typeAgent outputParserActive creds tws 0 envs

/-- The result entry the loop produces for one item, as a function of that
item's processing outcome alone. -/
def expectedResult (typeAgent : AgentMode) (outputParserActive : Bool)
    (creds : Credentials) (tws : List ToolWithPlugin) (idx : Nat)
    (env : ItemEnv) : ItemResult :=
  match (processItem typeAgent outputParserActive creds tws idx env).2 with
  | .ok json => ⟨json, none⟩
  | .error e => ⟨errorJson e, some idx⟩

/-- The per-item result entries for a run of consecutive items starting at
index `idx`. -/
def expectedResults (typeAgent : AgentMode) (outputParserActive : Bool)
    (creds : Credentials) (tws : List ToolWithPlugin) :
    Nat → List ItemEnv → List ItemResult
  | _, [] => []
  | idx, env :: rest =>
    expectedResult typeAgent outputParserActive creds tws idx env ::
      expectedResults typeAgent outputParserActive creds tws (idx + 1) rest

/-- The item tag of an event. -/
def eventItem : AgentEvent → Nat
  | .construct i => i
  | .register i _ => i
  | .execute i _ _ => i

/-- Whether an event is an `execute` call on item `idx`'s agent instance. -/
def isExecuteEvent (idx : Nat) : AgentEvent → Bool
  | .execute i _ _ => i = idx
  | _ => false

/-- Whether an event is a `registerPlugin` call on item `idx`'s instance. -/
def isRegisterEvent (idx : Nat) : AgentEvent → Bool
  | .register i _ => i = idx
  | _ => false

/-- Whether an event is the construction of item `idx`'s agent instance. -/
def isConstructEvent (idx : Nat) : AgentEvent → Bool
  | .construct i => i = idx
  | _ => false

/- ------------------------------------------------------------------ -/
/- Lemmas about field stripping. -/

/-- Looking up a stripped key in an `omit`-ed object yields nothing. -/
theorem lookupField_omitFields_mem (resp : Fields) (keys : List String)
    (k : String) (hk : k ∈ keys) : lookupField (omitFields resp keys) k = none := by
  induction resp with
  | nil => rfl
  | cons kv rest ih =>
    simp only [omitFields, List.filter_cons] at ih ⊢
    by_cases hm : kv.1 ∈ keys
    · simpa [hm] using ih
    · have hne : kv.1 ≠ k := fun he => hm (he ▸ hk)
      simpa [hm, lookupField, hne] using ih

/-- Looking up a non-stripped key in an `omit`-ed object is unchanged. -/
theorem lookupField_omitFields_not_mem (resp : Fields) (keys : List String)
    (k : String) (hk : k ∉ keys) :
    lookupField (omitFields resp keys) k = lookupField resp k := by
  induction resp with
  | nil => rfl
  | cons kv rest ih =>
    simp only [omitFields, List.filter_cons] at ih ⊢
    by_cases hm : kv.1 ∈ keys
    · have hne : kv.1 ≠ k := fun he => hk (he ▸ hm)
      simpa [hm, lookupField, hne] using ih
    · by_cases he : kv.1 = k
      · simp [hm, lookupField, he, hk]
      · simpa [hm, lookupField, he] using ih

/-- Stripping the same key set twice is the same as stripping it once. -/
theorem omitFields_idem (resp : Fields) (keys : List String) :
    omitFields (omitFields resp keys) keys = omitFields resp keys := by
  simp [omitFields, List.filter_filter]

/- ------------------------------------------------------------------ -/
/- Claim theorems. -/

/-- C1: the normalization step removes exactly the five bookkeeping fields
`system_message`, `formatting_instructions`, `input`, `chat_history` and
`agent_scratchpad`, leaves every other field unchanged, does so identically
for both `AgentMode` values, and is idempotent. -/
theorem normalization_strips_bookkeeping (m m' : AgentMode)
    (outputParserActive : Bool) (resp : Fields) :
    normalizeResponse m false resp = .ok (omitFields resp bookkeepingFields) ∧
    (∀ k ∈ bookkeepingFields,
      lookupField (omitFields resp bookkeepingFields) k = none) ∧
    (∀ k, k ∉ bookkeepingFields →
      lookupField (omitFields resp bookkeepingFields) k = lookupField resp k) ∧
    omitFields (omitFields resp bookkeepingFields) bookkeepingFields =
      omitFields resp bookkeepingFields ∧
    normalizeResponse m outputParserActive resp =
      normalizeResponse m' outputParserActive resp :=
  ⟨rfl, fun k hk => lookupField_omitFields_mem resp _ k hk,
    fun k hk => lookupField_omitFields_not_mem resp _ k hk,
    omitFields_idem resp _, rfl⟩

/-- Witness for C1 at a concrete response. -/
theorem normalization_strips_bookkeeping_witness :
    lookupField
      (omitFields [("input", JsValue.null), ("a", JsValue.num 1)] bookkeepingFields)
      "input" = none ∧
    lookupField
      (omitFields [("input", JsValue.null), ("a", JsValue.num 1)] bookkeepingFields)
      "a" = some (JsValue.num 1) := by
  have h := normalization_strips_bookkeeping .toolsAgent .planAndExecuteAgent false
      [("input", JsValue.null), ("a", JsValue.num 1)]
  exact ⟨h.2.1 "input" (by simp [bookkeepingFields]),
    (h.2.2.1 "a" (by simp [bookkeepingFields])).trans rfl⟩

/-- C2 counterexample: a parse result that contains an `output` key whose
value is `null` is NOT replaced by that key's value; `?? ` falls back to the
whole parsed structure instead. -/
theorem outputParser_envelope_null_counterexample :
    jsonParse "\x7b\"output\":null\x7d" =
      some (JsValue.obj [("output", JsValue.null)]) ∧
    jsGetProp (JsValue.obj [("output", JsValue.null)]) "output" =
      some JsValue.null ∧
    normalizeResponse .toolsAgent true
        [("output", JsValue.str "\x7b\"output\":null\x7d")] =
      .ok [("output", JsValue.obj [("output", JsValue.null)])] ∧
    JsValue.obj [("output", JsValue.null)] ≠ JsValue.null :=
  ⟨rfl, rfl, rfl, by simp⟩

/-- C2 (amended): with an output parser active, `raw.output` is parsed as
JSON; a parse result with a non-nullish `output` key is replaced by that
key's value, a parse result without an `output` key — or whose `output` key
is nullish — replaces `raw.output` as a whole, and an unparseable
`raw.output` makes normalization fail instead of passing the string
through. -/
theorem outputParser_envelope_unwrap (m : AgentMode) (resp : Fields)
    (s : String) (hout : lookupField resp "output" = some (JsValue.str s)) :
    (∀ parsed v, jsonParse s = some parsed →
      jsGetProp parsed "output" = some v → jsIsNullish v = false →
      normalizeResponse m true resp =
        .ok (omitFields (setField resp "output" v) bookkeepingFields)) ∧
    (∀ parsed, jsonParse s = some parsed →
      (jsGetProp parsed "output" = none ∨
        ∃ v, jsGetProp parsed "output" = some v ∧ jsIsNullish v = true) →
      normalizeResponse m true resp =
        .ok (omitFields (setField resp "output" parsed) bookkeepingFields)) ∧
    (jsonParse s = none →
      normalizeResponse m true resp = .error (JsError.mk parseFailureMessage)) := by
  refine ⟨?_, ?_, ?_⟩
  · intro parsed v hp hg hn
    simp [normalizeResponse, jsGetField, hout, jsonParseOutput, hp, unwrapOutput, hg, hn]
  · intro parsed hp hcase
    rcases hcase with hg | ⟨v, hg, hn⟩
    · simp [normalizeResponse, jsGetField, hout, jsonParseOutput, hp, unwrapOutput, hg]
    · simp [normalizeResponse, jsGetField, hout, jsonParseOutput, hp, unwrapOutput, hg, hn]
  · intro hp
    simp [normalizeResponse, jsGetField, hout, jsonParseOutput, hp]

/-- Witness for C2 (amended) at the spec's three worked examples. -/
theorem outputParser_envelope_unwrap_witness :
    normalizeResponse .toolsAgent true
        [("output", JsValue.str "\x7b\"output\":\x7b\"a\":1\x7d\x7d")] =
      .ok [("output", JsValue.obj [("a", JsValue.num 1)])] ∧
    normalizeResponse .toolsAgent true [("output", JsValue.str "\x7b\"a\":1\x7d")] =
      .ok [("output", JsValue.obj [("a", JsValue.num 1)])] ∧
    normalizeResponse .toolsAgent true [("output", JsValue.str "not json")] =
      .error (JsError.mk parseFailureMessage) := by
  have h1 := (outputParser_envelope_unwrap .toolsAgent
      [("output", JsValue.str "\x7b\"output\":\x7b\"a\":1\x7d\x7d")] _ rfl).1
      (JsValue.obj [("output", JsValue.obj [("a", JsValue.num 1)])])
      (JsValue.obj [("a", JsValue.num 1)]) rfl rfl rfl
  have h2 := (outputParser_envelope_unwrap .toolsAgent
      [("output", JsValue.str "\x7b\"a\":1\x7d")] _ rfl).2.1
      (JsValue.obj [("a", JsValue.num 1)]) rfl (Or.inl rfl)
  have h3 := (outputParser_envelope_unwrap .toolsAgent
      [("output", JsValue.str "not json")] _ rfl).2.2 rfl
  exact ⟨h1.trans rfl, h2.trans rfl, h3⟩

/-- C5 counterexample: a supplied empty-string mnemonic is not used; the
wallet is built with the placeholder seed phrase instead (JS `||` treats the
empty string as falsy). -/
theorem wallet_seed_empty_counterexample :
    (buildWallet (some "")).seedPhrase = defaultSeedPhrase ∧
    (buildWallet (some "")).seedPhrase ≠ "" := by
  refine ⟨rfl, ?_⟩
  simp [buildWallet, jsStringOr, defaultSeedPhrase]

/-- C5 (amended): a missing mnemonic — and likewise a supplied empty-string
mnemonic — is replaced by the fixed placeholder seed phrase, without the run
failing; a supplied non-empty mnemonic is used as given. -/
theorem wallet_seed_fallback (s : String) (hs : s ≠ "") :
    (buildWallet none).seedPhrase = defaultSeedPhrase ∧
    (buildWallet (some "")).seedPhrase = defaultSeedPhrase ∧
    buildWallet (some s) = ⟨s, 0⟩ := by
  refine ⟨rfl, rfl, ?_⟩
  simp [buildWallet, jsStringOr, hs]

/-- Witness for C5 (amended) at a concrete non-empty mnemonic. -/
theorem wallet_seed_fallback_witness :
    buildWallet (some "alpha bravo charlie") = ⟨"alpha bravo charlie", 0⟩ :=
  (wallet_seed_fallback "alpha bravo charlie" (by decide)).2.2

/- ------------------------------------------------------------------ -/
/- Lemmas about the driver loop. -/

/-- `netBuildOk` means the networks config actually built. -/
theorem netBuildOk_iff (creds : Credentials) :
    netBuildOk creds = true ↔
      ∃ cfg, getNetworksConfig (credRpcUrls creds) = .ok cfg := by
  unfold netBuildOk
  cases h : getNetworksConfig (credRpcUrls creds) <;> simp [h]

/-- The compacted plugin list is the in-order plugin projection with the
`undefined` entries filtered out. -/
theorem derivePlugins_eq (tws : List ToolWithPlugin) :
    derivePlugins tws =
      (tws.map (fun t => t.plugin)).filter (fun p => !(jsIsUndefined p)) := by
  have h : ∀ (f : ToolWithPlugin → JsValue) (acc : List JsValue),
      tws.foldl (fun a t => a ++ [f t]) acc = acc ++ tws.map f := by
    intro f
    induction tws with
    | nil => simp
    | cons t rest ih => intro acc; simp [List.foldl, ih]
  simp [derivePlugins, deriveToolsAndPlugins, h]

/-- The tools view is the in-order tool projection. -/
theorem deriveTools_eq (tws : List ToolWithPlugin) :
    (deriveToolsAndPlugins tws).1 = tws.map (fun t => t.tool) := by
  have h : ∀ (f : ToolWithPlugin → JsValue) (acc : List JsValue),
      tws.foldl (fun a t => a ++ [f t]) acc = acc ++ tws.map f := by
    intro f
    induction tws with
    | nil => simp
    | cons t rest ih => intro acc; simp [List.foldl, ih]
  simp [deriveToolsAndPlugins, h]

/-- Every event recorded while processing item `idx` is tagged `idx`. -/
theorem processItem_trace_item (ta : AgentMode) (op : Bool) (creds : Credentials)
    (tws : List ToolWithPlugin) (idx : Nat) (env : ItemEnv) :
    ∀ ev ∈ (processItem ta op creds tws idx env).1, eventItem ev = idx := by
  have hsetup : ∀ ev ∈ setupTrace tws idx, eventItem ev = idx := by
    intro ev hev
    rcases List.mem_cons.mp hev with h | h
    · simp [h, eventItem]
    · obtain ⟨p, _, hp⟩ := List.mem_map.mp h
      simp [← hp, eventItem]
  intro ev hev
  unfold processItem at hev
  cases hcfg : getNetworksConfig (credRpcUrls creds) with
  | error e => rw [hcfg] at hev; simp at hev
  | ok cfg =>
    rw [hcfg] at hev
    cases hin : env.input with
    | none => rw [hin] at hev; exact hsetup ev hev
    | some s =>
      rw [hin] at hev
      cases hex : env.execResult with
      | error e =>
        rw [hex] at hev
        rcases List.mem_append.mp hev with h | h
        · exact hsetup ev h
        · simp at h; simp [h, eventItem]
      | ok resp =>
        rw [hex] at hev
        rcases List.mem_append.mp hev with h | h
        · exact hsetup ev h
        · simp at h; simp [h, eventItem]

/-- The shape of one item's trace when the networks config builds: the
construction and in-order plugin registrations, followed by exactly one
`execute` call when (and only when) the prompt input resolved. -/
theorem processItem_trace_shape (ta : AgentMode) (op : Bool) (creds : Credentials)
    (tws : List ToolWithPlugin) (idx : Nat) (env : ItemEnv)
    (hnet : netBuildOk creds = true) :
    (env.input = none → (processItem ta op creds tws idx env).1 = setupTrace tws idx) ∧
    (∀ s, env.input = some s →
      (processItem ta op creds tws idx env).1 =
        setupTrace tws idx ++
          [AgentEvent.execute idx s (env.memory.map loadMemoryVariables)]) := by
  obtain ⟨cfg, hcfg⟩ := (netBuildOk_iff creds).mp hnet
  constructor
  · intro hin
    unfold processItem
    rw [hcfg, hin]
  · intro s hin
    unfold processItem
    rw [hcfg, hin]
    cases hex : env.execResult <;> rfl

/-- With continue-on-fail, the loop never aborts: it produces exactly the
per-item results (normalized payload on success, `(error: message)` with
`pairedItem` on failure), one per item, in order. -/
theorem runBatchAux_continueOnFail (ta : AgentMode) (op : Bool)
    (creds : Credentials) (tws : List ToolWithPlugin) :
    ∀ (envs : List ItemEnv) (idx : Nat),
      (runBatchAux true ta op creds tws idx envs).2 =
        .ok (expectedResults ta op creds tws idx envs) := by
  intro envs
  induction envs with
  | nil => intro idx; rfl
  | cons env rest ih =>
    intro idx
    simp only [runBatchAux, expectedResults, expectedResult]
    cases h : (processItem ta op creds tws idx env).2 with
    | ok json => simp [h, ih (idx + 1), Except.map]
    | error e => simp [h, ih (idx + 1), Except.map]

/-- Without continue-on-fail, the first failing item re-raises its error and
aborts: the batch result is that error, and no event of any later item is
recorded. -/
theorem runBatchAux_abort (ta : AgentMode) (op : Bool) (creds : Credentials)
    (tws : List ToolWithPlugin) (e : JsError) :
    ∀ (pre : List ItemEnv) (idx : Nat) (bad : ItemEnv) (post : List ItemEnv),
      (∀ j envj, pre.get? j = some envj →
        ∃ json, (processItem ta op creds tws (idx + j) envj).2 = .ok json) →
      (processItem ta op creds tws (idx + pre.length) bad).2 = .error e →
      (runBatchAux false ta op creds tws idx (pre ++ bad :: post)).2 = .error e ∧
      (∀ ev ∈ (runBatchAux false ta op creds tws idx (pre ++ bad :: post)).1,
        eventItem ev ≤ idx + pre.length) := by
  intro pre
  induction pre with
  | nil =>
    intro idx bad post _ hbad
    simp only [List.length_nil, Nat.add_zero] at hbad
    simp only [List.nil_append, runBatchAux, hbad]
    refine ⟨rfl, ?_⟩
    intro ev hev
    rw [processItem_trace_item ta op creds tws idx bad ev hev]
    omega
  | cons p pre' ih =>
    intro idx bad post hpre hbad
    obtain ⟨json0, h0⟩ := hpre 0 p rfl
    rw [Nat.add_zero] at h0
    have hbad' : (processItem ta op creds tws ((idx + 1) + pre'.length) bad).2 =
        .error e := by
      have : (idx + 1) + pre'.length = idx + (p :: pre').length := by
        rw [List.length_cons]; omega
      rw [this]; exact hbad
    have hpre' : ∀ j envj, pre'.get? j = some envj →
        ∃ json, (processItem ta op creds tws ((idx + 1) + j) envj).2 = .ok json := by
      intro j envj hj
      have : ((idx + 1) + j) = idx + (j + 1) := by omega
      rw [this]
      exact hpre (j + 1) envj hj
    obtain ⟨htail2, htail1⟩ := ih (idx + 1) bad post hpre' hbad'
    simp only [List.cons_append, runBatchAux, h0]
    constructor
    · simp [htail2, Except.map]
    · intro ev hev
      rcases List.mem_append.mp hev with h | h
      · rw [processItem_trace_item ta op creds tws idx p ev h, List.length_cons]
        omega
      · have := htail1 ev h
        rw [List.length_cons]
        omega

/-- Every event of a loop started at item `idx` belongs to item `idx` or a
later one. -/
theorem runBatchAux_trace_ge (cof : Bool) (ta : AgentMode) (op : Bool)
    (creds : Credentials) (tws : List ToolWithPlugin) :
    ∀ (envs : List ItemEnv) (idx : Nat) (ev : AgentEvent),
      ev ∈ (runBatchAux cof ta op creds tws idx envs).1 → idx ≤ eventItem ev := by
  intro envs
  induction envs with
  | nil => intro idx ev hev; simp [runBatchAux] at hev
  | cons env rest ih =>
    intro idx ev hev
    cases h : (processItem ta op creds tws idx env).2 with
    | ok json =>
      simp only [runBatchAux, h] at hev
      rcases List.mem_append.mp hev with hm | hm
      · rw [processItem_trace_item ta op creds tws idx env ev hm]
      · exact Nat.le_of_succ_le (ih (idx + 1) ev hm)
    | error e =>
      cases cof with
      | true =>
        simp only [runBatchAux, h, if_true] at hev
        rcases List.mem_append.mp hev with hm | hm
        · rw [processItem_trace_item ta op creds tws idx env ev hm]
        · exact Nat.le_of_succ_le (ih (idx + 1) ev hm)
      | false =>
        simp only [runBatchAux, h, if_false] at hev
        rw [processItem_trace_item ta op creds tws idx env ev hev]

/-- The setup phase of an item contains no `execute` event. -/
theorem setupTrace_execCount (tws : List ToolWithPlugin) (idx i : Nat) :
    (setupTrace tws idx).countP (isExecuteEvent i) = 0 := by
  rw [List.countP_eq_zero]
  intro ev hev
  rcases List.mem_cons.mp hev with h | h
  · simp [h, isExecuteEvent]
  · obtain ⟨p, _, hp⟩ := List.mem_map.mp h
    simp [← hp, isExecuteEvent]

/-- The setup phase of item `idx` contains exactly one construction event. -/
theorem setupTrace_constructCount (tws : List ToolWithPlugin) (idx : Nat) :
    (setupTrace tws idx).countP (isConstructEvent idx) = 1 := by
  simp only [setupTrace, List.countP_cons]
  have h0 : ((derivePlugins tws).map (AgentEvent.register idx)).countP
      (isConstructEvent idx) = 0 := by
    rw [List.countP_eq_zero]
    intro ev hev
    obtain ⟨p, _, hp⟩ := List.mem_map.mp hev
    simp [← hp, isConstructEvent]
  simp [h0, isConstructEvent]

/-- Per-item `execute`-call count: at most one; exactly one when the networks
config builds and the prompt input resolves; zero when the input is missing. -/
theorem processItem_execCount (ta : AgentMode) (op : Bool) (creds : Credentials)
    (tws : List ToolWithPlugin) (idx : Nat) (env : ItemEnv) :
    ((processItem ta op creds tws idx env).1.countP (isExecuteEvent idx) ≤ 1) ∧
    (netBuildOk creds = true → ∀ s, env.input = some s →
      (processItem ta op creds tws idx env).1.countP (isExecuteEvent idx) = 1) ∧
    (env.input = none →
      (processItem ta op creds tws idx env).1.countP (isExecuteEvent idx) = 0) := by
  have hexec : ∀ s h,
      (setupTrace tws idx ++ [AgentEvent.execute idx s h]).countP
        (isExecuteEvent idx) = 1 := by
    intro s h
    rw [List.countP_append, setupTrace_execCount]
    simp [isExecuteEvent]
  unfold processItem
  cases hcfg : getNetworksConfig (credRpcUrls creds) with
  | error e =>
    refine ⟨by simp, ?_, by simp⟩
    intro hnet s hin
    rw [netBuildOk_iff] at hnet
    obtain ⟨cfg, hc⟩ := hnet
    rw [hcfg] at hc
    cases hc
  | ok cfg =>
    cases hin : env.input with
    | none =>
      refine ⟨?_, ?_, ?_⟩
      · simp [setupTrace_execCount]
      · intro _ s hs; cases hs
      · intro _; exact setupTrace_execCount tws idx idx
    | some s =>
      cases hex : env.execResult with
      | error e =>
        refine ⟨by simp [hexec], ?_, ?_⟩
        · intro _ s' hs'
          cases hs'
          exact hexec s _
        · intro hnone; cases hnone
      | ok resp =>
        refine ⟨by simp [hexec], ?_, ?_⟩
        · intro _ s' hs'
          cases hs'
          exact hexec s _
        · intro hnone; cases hnone

/-- Per-item construction count: at most one construction event. -/
theorem processItem_constructCount (ta : AgentMode) (op : Bool)
    (creds : Credentials) (tws : List ToolWithPlugin) (idx : Nat) (env : ItemEnv) :
    (processItem ta op creds tws idx env).1.countP (isConstructEvent idx) ≤ 1 := by
  have hsetup := setupTrace_constructCount tws idx
  have hexecEv : ∀ s h, (List.countP (isConstructEvent idx)
      [AgentEvent.execute idx s h]) = 0 := by
    intro s h; simp [isConstructEvent]
  unfold processItem
  cases hcfg : getNetworksConfig (credRpcUrls creds) with
  | error e => simp
  | ok cfg =>
    cases hin : env.input with
    | none => simp [hsetup]
    | some s =>
      cases hex : env.execResult with
      | error e => simp [List.countP_append, hsetup, hexecEv]
      | ok resp => simp [List.countP_append, hsetup, hexecEv]

/-- Counting events of a predicate that only matches item `i`'s instance:
the whole batch trace contains at most `n` of them whenever each single
item's processing contributes at most `n`. -/
theorem runBatchAux_countP_le (cof : Bool) (ta : AgentMode) (op : Bool)
    (creds : Credentials) (tws : List ToolWithPlugin) (i : Nat)
    (P : AgentEvent → Bool) (hP : ∀ ev, P ev = true → eventItem ev = i)
    (n : Nat)
    (hitem : ∀ env, (processItem ta op creds tws i env).1.countP P ≤ n) :
    ∀ (envs : List ItemEnv) (idx : Nat),
      (runBatchAux cof ta op creds tws idx envs).1.countP P ≤ n := by
  have hother : ∀ (idx : Nat) (env : ItemEnv), idx ≠ i →
      (processItem ta op creds tws idx env).1.countP P = 0 := by
    intro idx env hne
    rw [List.countP_eq_zero]
    intro ev hev hPev
    exact hne ((processItem_trace_item ta op creds tws idx env ev hev) ▸ hP ev hPev)
  have htail : ∀ (envs : List ItemEnv) (idx : Nat), i < idx →
      (runBatchAux cof ta op creds tws idx envs).1.countP P = 0 := by
    intro envs idx hlt
    rw [List.countP_eq_zero]
    intro ev hev hPev
    have h1 := runBatchAux_trace_ge cof ta op creds tws envs idx ev hev
    have h2 := hP ev hPev
    omega
  intro envs
  induction envs with
  | nil => intro idx; simp [runBatchAux]
  | cons env rest ih =>
    intro idx
    by_cases hidx : idx = i
    · subst hidx
      cases h : (processItem ta op creds tws idx env).2 with
      | ok json =>
        simp only [runBatchAux, h, List.countP_append]
        have := htail rest (idx + 1) (by omega)
        rw [this]
        simpa using hitem env
      | error e =>
        cases cof with
        | true =>
          simp only [runBatchAux, h, if_true, List.countP_append]
          have := htail rest (idx + 1) (by omega)
          rw [this]
          simpa using hitem env
        | false =>
          simp only [runBatchAux, h, if_false]
          exact hitem env
    · cases h : (processItem ta op creds tws idx env).2 with
      | ok json =>
        simp only [runBatchAux, h, List.countP_append]
        rw [hother idx env hidx]
        simpa using ih (idx + 1)
      | error e =>
        cases cof with
        | true =>
          simp only [runBatchAux, h, if_true, List.countP_append]
          rw [hother idx env hidx]
          simpa using ih (idx + 1)
        | false =>
          simp only [runBatchAux, h, if_false]
          simp [hother idx env hidx]

/-- With continue-on-fail, the batch trace's count of events matching item
`i`'s instance equals exactly what item `i`'s own processing contributes. -/
theorem runBatchAux_countP_eq (ta : AgentMode) (op : Bool) (creds : Credentials)
    (tws : List ToolWithPlugin) (i : Nat) (P : AgentEvent → Bool)
    (hP : ∀ ev, P ev = true → eventItem ev = i) :
    ∀ (envs : List ItemEnv) (idx j : Nat) (envj : ItemEnv),
      envs.get? j = some envj → i = idx + j →
      (runBatchAux true ta op creds tws idx envs).1.countP P =
        (processItem ta op creds tws i envj).1.countP P := by
  have hother : ∀ (idx : Nat) (env : ItemEnv), idx ≠ i →
      (processItem ta op creds tws idx env).1.countP P = 0 := by
    intro idx env hne
    rw [List.countP_eq_zero]
    intro ev hev hPev
    exact hne ((processItem_trace_item ta op creds tws idx env ev hev) ▸ hP ev hPev)
  have htail : ∀ (envs : List ItemEnv) (idx : Nat), i < idx →
      (runBatchAux true ta op creds tws idx envs).1.countP P = 0 := by
    intro envs idx hlt
    rw [List.countP_eq_zero]
    intro ev hev hPev
    have h1 := runBatchAux_trace_ge true ta op creds tws envs idx ev hev
    have h2 := hP ev hPev
    omega
  intro envs
  induction envs with
  | nil => intro idx j envj hj _; cases hj
  | cons env rest ih =>
    intro idx j envj hj hi
    cases j with
    | zero =>
      have henv : envj = env := by simpa using hj.symm
      subst henv
      rw [Nat.add_zero] at hi
      subst hi
      cases h : (processItem ta op creds tws i envj).2 with
      | ok json =>
        simp only [runBatchAux, h, List.countP_append]
        rw [htail rest (i + 1) (by omega)]
        omega
      | error e =>
        simp only [runBatchAux, h, if_true, List.countP_append]
        rw [htail rest (i + 1) (by omega)]
        omega
    | succ j' =>
      have hj' : rest.get? j' = some envj := hj
      have hi' : i = (idx + 1) + j' := by omega
      have hne : idx ≠ i := by omega
      cases h : (processItem ta op creds tws idx env).2 with
      | ok json =>
        simp only [runBatchAux, h, List.countP_append]
        rw [hother idx env hne, ih (idx + 1) j' envj hj' hi']
        omega
      | error e =>
        simp only [runBatchAux, h, if_true, List.countP_append]
        rw [hother idx env hne, ih (idx + 1) j' envj hj' hi']
        omega

/-- A concrete credential object whose networks config builds. -/
def okCreds : Credentials :=
  ⟨some "https://bnb.example", some "https://eth.example",
    some "https://sol.example", none⟩

/-- C3: with continue-on-fail, every failed item yields `(error: message)` in
place of a result and processing continues with the next item (one result per
item, in order); without it, the first failing item's error is re-raised,
aborting the batch, and no later item is processed. -/
theorem batch_failure_isolation (ta : AgentMode) (op : Bool) (creds : Credentials)
    (tws : List ToolWithPlugin) (envs : List ItemEnv)
    (pre : List ItemEnv) (bad : ItemEnv) (post : List ItemEnv) (e : JsError)
    (hpre : ∀ j envj, pre.get? j = some envj →
      ∃ json, (processItem ta op creds tws j envj).2 = .ok json)
    (hbad : (processItem ta op creds tws pre.length bad).2 = .error e) :
    ((runBatch true ta op creds tws envs).2 =
      .ok (expectedResults ta op creds tws 0 envs)) ∧
    (∀ idx env ex, (processItem ta op creds tws idx env).2 = .error ex →
      expectedResult ta op creds tws idx env = ⟨errorJson ex, some idx⟩) ∧
    ((runBatch false ta op creds tws (pre ++ bad :: post)).2 = .error e) ∧
    (∀ ev ∈ (runBatch false ta op creds tws (pre ++ bad :: post)).1,
      eventItem ev ≤ pre.length) := by
  have habort := runBatchAux_abort ta op creds tws e pre 0 bad post
    (by intro j envj hj; rw [Nat.zero_add]; exact hpre j envj hj)
    (by rw [Nat.zero_add]; exact hbad)
  refine ⟨runBatchAux_continueOnFail ta op creds tws envs 0, ?_, habort.1, ?_⟩
  · intro idx env ex hex
    simp [expectedResult, hex]
  · intro ev hev
    have := habort.2 ev hev
    omega

/-- Witness for C3: a two-item batch whose second item fails; with
continue-on-fail both results are present, without it the batch aborts. -/
theorem batch_failure_isolation_witness :
    (runBatch true .toolsAgent false okCreds []
        [⟨none, some "hi", .ok []⟩, ⟨none, none, .ok []⟩]).2 =
      .ok [⟨[], none⟩, ⟨[("error", JsValue.str textEmptyMessage)], some 1⟩] ∧
    (runBatch false .toolsAgent false okCreds []
        [⟨none, some "hi", .ok []⟩, ⟨none, none, .ok []⟩]).2 =
      .error (JsError.mk textEmptyMessage) := by
  have h := batch_failure_isolation .toolsAgent false okCreds []
      [⟨none, some "hi", .ok []⟩, ⟨none, none, .ok []⟩]
      [⟨none, some "hi", .ok []⟩] ⟨none, none, .ok []⟩ []
      (JsError.mk textEmptyMessage)
      (by
        intro j envj hj
        match j, hj with
        | 0, hj =>
          have : envj = ⟨none, some "hi", .ok []⟩ := by simpa using hj.symm
          subst this
          exact ⟨[], rfl⟩)
      rfl
  exact ⟨h.1.trans rfl, h.2.2.1⟩

/-- C4: the derived `tools` view is exactly the tool descriptors in discovery
order; the derived `plugins` view is an order-preserving sublist of the
in-order plugin projection that keeps exactly the present (non-`undefined`)
handles, duplicates included, the absent ones dropped by the explicit
`!== undefined` compaction. -/
theorem registry_views (tws : List ToolWithPlugin) :
    (deriveToolsAndPlugins tws).1 = tws.map (fun t => t.tool) ∧
    (deriveToolsAndPlugins tws).2.Sublist (tws.map (fun t => t.plugin)) ∧
    (∀ p ∈ (deriveToolsAndPlugins tws).2, jsIsUndefined p = false) ∧
    (∀ p, p ∈ tws.map (fun t => t.plugin) → jsIsUndefined p = false →
      p ∈ (deriveToolsAndPlugins tws).2) ∧
    (∀ q : JsValue → Bool, (∀ x, q x = true → jsIsUndefined x = false) →
      (deriveToolsAndPlugins tws).2.countP q =
        (tws.map (fun t => t.plugin)).countP q) := by
  have hp : (deriveToolsAndPlugins tws).2 =
      (tws.map (fun t => t.plugin)).filter (fun p => !(jsIsUndefined p)) :=
    derivePlugins_eq tws
  refine ⟨deriveTools_eq tws, ?_, ?_, ?_, ?_⟩
  · rw [hp]; exact List.filter_sublist _
  · intro p hmem
    rw [hp] at hmem
    have := (List.mem_filter.mp hmem).2
    simpa using this
  · intro p hmem hu
    rw [hp]
    exact List.mem_filter.mpr ⟨hmem, by simp [hu]⟩
  · intro q hq
    rw [hp]
    induction tws.map (fun t => t.plugin) with
    | nil => rfl
    | cons p rest ih =>
      cases hqp : q p with
      | true =>
        have hup := hq p hqp
        simp [List.filter_cons, List.countP_cons, hup, hqp, ih]
      | false =>
        cases hu : jsIsUndefined p with
        | true => simp [List.filter_cons, List.countP_cons, hu, hqp, ih]
        | false => simp [List.filter_cons, List.countP_cons, hu, hqp, ih]

/-- Witness for C4: a present handle following an absent one survives the
compaction. -/
theorem registry_views_witness :
    JsValue.str "p2" ∈
      (deriveToolsAndPlugins
        [⟨JsValue.str "t1", JsValue.undefined⟩, ⟨JsValue.str "t2", JsValue.str "p2"⟩]).2 :=
  (registry_views _).2.2.2.1 (JsValue.str "p2") (by simp) rfl

/-- C6 counterexample: an item whose prompt input is `undefined` constructs
the agent instance and registers plugins, but `execute` is never called on it
— zero `execute` calls, not exactly one. -/
theorem orchestrator_lifecycle_counterexample :
    (runBatch false .toolsAgent false okCreds []
      [⟨none, none, Except.ok []⟩]).1.countP (isExecuteEvent 0) = 0 ∧
    (runBatch false .toolsAgent false okCreds []
      [⟨none, none, Except.ok []⟩]).1.countP (isConstructEvent 0) = 1 :=
  ⟨rfl, rfl⟩

/-- C6 (amended): per input item a fresh agent instance is constructed (at
most one construction event per item index across the batch) and every
compacted plugin is registered on it before the single `execute` call;
`execute` is called at most once per instance — exactly once when the item's
input resolves — and never a second time across items. -/
theorem orchestrator_lifecycle (cof : Bool) (ta : AgentMode) (op : Bool)
    (creds : Credentials) (tws : List ToolWithPlugin) (envs : List ItemEnv)
    (idx : Nat) (hnet : netBuildOk creds = true) :
    ((runBatch cof ta op creds tws envs).1.countP (isConstructEvent idx) ≤ 1) ∧
    ((runBatch cof ta op creds tws envs).1.countP (isExecuteEvent idx) ≤ 1) ∧
    (∀ env s, env.input = some s →
      (processItem ta op creds tws idx env).1 =
        (AgentEvent.construct idx ::
          (derivePlugins tws).map (AgentEvent.register idx)) ++
          [AgentEvent.execute idx s (env.memory.map loadMemoryVariables)]) ∧
    (∀ envj s, envs.get? idx = some envj → envj.input = some s →
      (runBatch true ta op creds tws envs).1.countP (isExecuteEvent idx) = 1) := by
  have hPexec : ∀ ev, isExecuteEvent idx ev = true → eventItem ev = idx := by
    intro ev hev
    cases ev with
    | construct i => simp [isExecuteEvent] at hev
    | register i p => simp [isExecuteEvent] at hev
    | execute i s h =>
      simp [isExecuteEvent] at hev
      simp [eventItem, hev]
  have hPcons : ∀ ev, isConstructEvent idx ev = true → eventItem ev = idx := by
    intro ev hev
    cases ev with
    | construct i =>
      simp [isConstructEvent] at hev
      simp [eventItem, hev]
    | register i p => simp [isConstructEvent] at hev
    | execute i s h => simp [isConstructEvent] at hev
  refine ⟨?_, ?_, ?_, ?_⟩
  · exact runBatchAux_countP_le cof ta op creds tws idx (isConstructEvent idx)
      hPcons 1 (fun env => processItem_constructCount ta op creds tws idx env)
      envs 0
  · exact runBatchAux_countP_le cof ta op creds tws idx (isExecuteEvent idx)
      hPexec 1 (fun env => (processItem_execCount ta op creds tws idx env).1)
      envs 0
  · intro env s hin
    have := (processItem_trace_shape ta op creds tws idx env hnet).2 s hin
    simpa [setupTrace] using this
  · intro envj s hj hin
    have heq := runBatchAux_countP_eq ta op creds tws idx (isExecuteEvent idx)
      hPexec envs 0 idx envj hj (by omega)
    rw [runBatch, heq]
    exact (processItem_execCount ta op creds tws idx envj).2.1 hnet s hin

/-- Witness for C6 (amended): a single-item batch with resolving input
executes exactly once and shows the register-then-execute trace shape. -/
theorem orchestrator_lifecycle_witness :
    (runBatch true .toolsAgent false okCreds []
      [⟨none, some "hi", Except.ok []⟩]).1.countP (isExecuteEvent 0) = 1 :=
  (orchestrator_lifecycle true .toolsAgent false okCreds []
    [⟨none, some "hi", Except.ok []⟩] 0 rfl).2.2.2
    ⟨none, some "hi", Except.ok []⟩ "hi" rfl rfl

/-- C7: when the memory collaborator is present, the driver loads the prior
memory state with `loadMemoryVariables` and passes it as the second argument
of the `execute` call; when absent, `execute` is called with the input
alone. -/
theorem memory_passed_to_execute (ta : AgentMode) (op : Bool)
    (creds : Credentials) (tws : List ToolWithPlugin) (idx : Nat)
    (env : ItemEnv) (s : String)
    (hnet : netBuildOk creds = true) (hin : env.input = some s) :
    (env.memory = none →
      (processItem ta op creds tws idx env).1 =
        setupTrace tws idx ++ [AgentEvent.execute idx s none]) ∧
    (∀ m, env.memory = some m →
      (processItem ta op creds tws idx env).1 =
        setupTrace tws idx ++
          [AgentEvent.execute idx s (some (loadMemoryVariables m))]) := by
  have hshape := (processItem_trace_shape ta op creds tws idx env hnet).2 s hin
  constructor
  · intro hm
    rw [hshape, hm]
    rfl
  · intro m hm
    rw [hshape, hm]
    rfl

/-- Witness for C7 at a concrete memory handle and a memory-less item. -/
theorem memory_passed_to_execute_witness :
    (processItem .toolsAgent false okCreds [] 0
        ⟨some ⟨JsValue.str "history"⟩, some "hi", Except.ok []⟩).1 =
      setupTrace [] 0 ++
        [AgentEvent.execute 0 "hi" (some (JsValue.str "history"))] ∧
    (processItem .toolsAgent false okCreds [] 0 ⟨none, some "hi", Except.ok []⟩).1 =
      setupTrace [] 0 ++ [AgentEvent.execute 0 "hi" none] := by
  have h1 := (memory_passed_to_execute .toolsAgent false okCreds [] 0
      ⟨some ⟨JsValue.str "history"⟩, some "hi", Except.ok []⟩ "hi" rfl rfl).2
      ⟨JsValue.str "history"⟩ rfl
  have h2 := (memory_passed_to_execute .toolsAgent false okCreds [] 0
      ⟨none, some "hi", Except.ok []⟩ "hi" rfl rfl).1 rfl
  exact ⟨h1, h2⟩

/-- C10: the compaction removes only strictly-`undefined` handles — a `null`
(or any other non-`undefined`) handle is kept in the plugins-to-register list
and `registerPlugin` is invoked with it. -/
theorem compaction_keeps_null (ta : AgentMode) (op : Bool) (creds : Credentials)
    (tws : List ToolWithPlugin) (idx : Nat) (env : ItemEnv) (p : JsValue)
    (hp : p ∈ tws.map (fun t => t.plugin)) (hu : jsIsUndefined p = false)
    (hnet : netBuildOk creds = true) :
    p ∈ derivePlugins tws ∧
    AgentEvent.register idx p ∈ (processItem ta op creds tws idx env).1 := by
  have hmem : p ∈ derivePlugins tws := by
    rw [derivePlugins_eq]
    exact List.mem_filter.mpr ⟨hp, by simp [hu]⟩
  refine ⟨hmem, ?_⟩
  have hsetup : AgentEvent.register idx p ∈ setupTrace tws idx :=
    List.mem_cons.mpr (Or.inr (List.mem_map.mpr ⟨p, hmem, rfl⟩))
  obtain ⟨cfg, hcfg⟩ := (netBuildOk_iff creds).mp hnet
  unfold processItem
  rw [hcfg]
  cases hin : env.input with
  | none => exact hsetup
  | some s =>
    cases hex : env.execResult with
    | error e => exact List.mem_append.mpr (Or.inl hsetup)
    | ok resp => exact List.mem_append.mpr (Or.inl hsetup)

/-- Witness for C10: a `null` plugin handle is registered. -/
theorem compaction_keeps_null_witness :
    JsValue.null ∈ derivePlugins [⟨JsValue.str "t", JsValue.null⟩] ∧
    AgentEvent.register 0 JsValue.null ∈
      (processItem .toolsAgent false okCreds [⟨JsValue.str "t", JsValue.null⟩] 0
        ⟨none, none, Except.ok []⟩).1 :=
  compaction_keeps_null .toolsAgent false okCreds
    [⟨JsValue.str "t", JsValue.null⟩] 0 ⟨none, none, Except.ok []⟩ JsValue.null
    (by simp) rfl rfl

/-- Indexing the expected per-item results. -/
theorem expectedResults_getIdx (ta : AgentMode) (op : Bool) (creds : Credentials)
    (tws : List ToolWithPlugin) :
    ∀ (envs : List ItemEnv) (idx j : Nat),
      (expectedResults ta op creds tws idx envs).get? j =
        (envs.get? j).map (expectedResult ta op creds tws (idx + j)) := by
  intro envs
  induction envs with
  | nil => intro idx j; simp [expectedResults]
  | cons env rest ih =>
    intro idx j
    cases j with
    | zero => simp [expectedResults]
    | succ j' =>
      have h := ih (idx + 1) j'
      have harith : idx + 1 + j' = idx + (j' + 1) := by omega
      rw [harith] at h
      simpa [expectedResults] using h

/-- C9: an item whose resolved prompt input is `undefined` raises the
`NodeOperationError` with message `The "text" parameter is empty.` before any
`execute` call; with continue-on-fail the item's result is that error message
(and later items still run), otherwise the batch aborts with it. -/
theorem empty_text_aborts_item (ta : AgentMode) (op : Bool) (creds : Credentials)
    (tws : List ToolWithPlugin) (env : ItemEnv) (idx : Nat)
    (pre post : List ItemEnv)
    (hnet : netBuildOk creds = true) (hin : env.input = none)
    (hpre : ∀ j envj, pre.get? j = some envj →
      ∃ json, (processItem ta op creds tws j envj).2 = .ok json) :
    ((processItem ta op creds tws idx env).2 =
      .error (JsError.mk textEmptyMessage)) ∧
    ((processItem ta op creds tws idx env).1.countP (isExecuteEvent idx) = 0) ∧
    ((runBatch true ta op creds tws (pre ++ env :: post)).2 =
      .ok (expectedResults ta op creds tws 0 (pre ++ env :: post))) ∧
    ((expectedResults ta op creds tws 0 (pre ++ env :: post)).get? pre.length =
      some ⟨[("error", JsValue.str textEmptyMessage)], some pre.length⟩) ∧
    ((runBatch false ta op creds tws (pre ++ env :: post)).2 =
      .error (JsError.mk textEmptyMessage)) := by
  obtain ⟨cfg, hcfg⟩ := (netBuildOk_iff creds).mp hnet
  have herr : ∀ i, (processItem ta op creds tws i env).2 =
      .error (JsError.mk textEmptyMessage) := by
    intro i
    unfold processItem
    rw [hcfg, hin]
  have hexp : ∀ i, expectedResult ta op creds tws i env =
      ⟨[("error", JsValue.str textEmptyMessage)], some i⟩ := by
    intro i
    simp only [expectedResult, herr i]
    rfl
  have habort := runBatchAux_abort ta op creds tws (JsError.mk textEmptyMessage)
    pre 0 env post
    (by intro j envj hj; rw [Nat.zero_add]; exact hpre j envj hj)
    (by rw [Nat.zero_add]; exact herr pre.length)
  refine ⟨herr idx, (processItem_execCount ta op creds tws idx env).2.2 hin,
    runBatchAux_continueOnFail ta op creds tws _ 0, ?_, habort.1⟩
  rw [expectedResults_getIdx]
  have hget : (pre ++ env :: post).get? pre.length = some env := by
    rw [List.get?_eq_getElem?, List.getElem?_append_right (Nat.le_refl pre.length)]
    simp
  rw [hget, Nat.zero_add]
  exact congrArg some (hexp pre.length)

/-- Witness for C9: a concrete two-item batch whose second item has no input. -/
theorem empty_text_aborts_item_witness :
    (processItem .toolsAgent false okCreds [] 0 ⟨none, none, Except.ok []⟩).2 =
      .error (JsError.mk textEmptyMessage) ∧
    (runBatch false .toolsAgent false okCreds []
        [⟨none, some "hello", Except.ok []⟩, ⟨none, none, Except.ok []⟩]).2 =
      .error (JsError.mk textEmptyMessage) := by
  have h := empty_text_aborts_item .toolsAgent false okCreds []
      ⟨none, none, Except.ok []⟩ 0 [⟨none, some "hello", Except.ok []⟩] []
      rfl rfl
      (by
        intro j envj hj
        match j, hj with
        | 0, hj =>
          have : envj = ⟨none, some "hello", Except.ok []⟩ := by simpa using hj.symm
          subst this
          exact ⟨[], rfl⟩)
  exact ⟨h.1, h.2.2.2.2⟩

/-- An accepted per-chain entry is either an omitted missing URL or a
non-empty supplied one. -/
theorem acceptChain_ok (c : Chain) (u : Option String) (l : List (Chain × String))
    (h : acceptChain c u = .ok l) :
    (u = none ∧ l = []) ∨ (∃ s, u = some s ∧ s ≠ "" ∧ l = [(c, s)]) := by
  cases u with
  | none =>
    refine Or.inl ⟨rfl, ?_⟩
    simpa [acceptChain] using h.symm
  | some s =>
    by_cases hs : s = ""
    · simp [acceptChain, hs] at h
    · refine Or.inr ⟨s, rfl, hs, ?_⟩
      simp [acceptChain, hs] at h
      exact h.symm

/-- The parts of a successfully built networks config. -/
theorem getNetworksConfig_ok_parts (urls : RpcUrls) (cfg : List (Chain × String))
    (hok : getNetworksConfig urls = .ok cfg) :
    ∃ b e s, acceptChain .BNB urls.bnb = .ok b ∧
      acceptChain .ETH urls.eth = .ok e ∧ acceptChain .SOL urls.sol = .ok s ∧
      cfg = b ++ e ++ s := by
  unfold getNetworksConfig at hok
  cases h1 : acceptChain .BNB urls.bnb with
  | error e1 => rw [h1] at hok; simp [Bind.bind, Except.bind] at hok
  | ok b =>
    rw [h1] at hok
    cases h2 : acceptChain .ETH urls.eth with
    | error e2 => rw [h2] at hok; simp [Bind.bind, Except.bind] at hok
    | ok e =>
      rw [h2] at hok
      cases h3 : acceptChain .SOL urls.sol with
      | error e3 => rw [h3] at hok; simp [Bind.bind, Except.bind] at hok
      | ok s =>
        rw [h3] at hok
        simp [Bind.bind, Except.bind, pure, Except.pure] at hok
        exact ⟨b, e, s, rfl, rfl, rfl, by rw [← hok, List.append_assoc]⟩

/-- C8 (modelled from the spec, see `getNetworksConfig`): every supplied RPC
URL is validated to be a non-empty string before being accepted into the
config — an empty supplied URL makes the build fail — while a chain whose URL
is missing does not fail the build and is only reported when a plugin
exercises that chain. -/
theorem rpc_validation (urls urls2 : RpcUrls) (cfg : List (Chain × String))
    (hok : getNetworksConfig urls = .ok cfg)
    (hbad : urls2.bnb = some "" ∨ urls2.eth = some "" ∨ urls2.sol = some "") :
    (getNetworksConfig urls2 = .error (JsError.mk "Invalid RPC URL")) ∧
    (∀ s, urls.bnb = some s → s ≠ "" ∧ exerciseChain cfg .BNB = .ok s) ∧
    (∀ s, urls.eth = some s → s ≠ "" ∧ exerciseChain cfg .ETH = .ok s) ∧
    (∀ s, urls.sol = some s → s ≠ "" ∧ exerciseChain cfg .SOL = .ok s) ∧
    (urls.bnb = none → exerciseChain cfg .BNB =
      .error (JsError.mk "No RPC URL configured for requested chain")) ∧
    (urls.eth = none → exerciseChain cfg .ETH =
      .error (JsError.mk "No RPC URL configured for requested chain")) ∧
    (urls.sol = none → exerciseChain cfg .SOL =
      .error (JsError.mk "No RPC URL configured for requested chain")) := by
  have hrej : getNetworksConfig urls2 = .error (JsError.mk "Invalid RPC URL") := by
    rcases hbad with h | h | h
    · simp [getNetworksConfig, acceptChain, h, Bind.bind, Except.bind]
    · cases hb : urls2.bnb with
      | none => simp [getNetworksConfig, acceptChain, hb, h, Bind.bind, Except.bind]
      | some sb =>
        by_cases hsb : sb = ""
        · simp [getNetworksConfig, acceptChain, hb, hsb, Bind.bind, Except.bind]
        · simp [getNetworksConfig, acceptChain, hb, hsb, h, Bind.bind, Except.bind]
    · cases hb : urls2.bnb with
      | none =>
        cases he2 : urls2.eth with
        | none =>
          simp [getNetworksConfig, acceptChain, hb, he2, h, Bind.bind, Except.bind]
        | some se =>
          by_cases hse : se = ""
          · simp [getNetworksConfig, acceptChain, hb, he2, hse, Bind.bind, Except.bind]
          · simp [getNetworksConfig, acceptChain, hb, he2, hse, h, Bind.bind,
              Except.bind]
      | some sb =>
        by_cases hsb : sb = ""
        · simp [getNetworksConfig, acceptChain, hb, hsb, Bind.bind, Except.bind]
        · cases he2 : urls2.eth with
          | none =>
            simp [getNetworksConfig, acceptChain, hb, hsb, he2, h, Bind.bind,
              Except.bind]
          | some se =>
            by_cases hse : se = ""
            · simp [getNetworksConfig, acceptChain, hb, hsb, he2, hse, Bind.bind,
                Except.bind]
            · simp [getNetworksConfig, acceptChain, hb, hsb, he2, hse, h, Bind.bind,
                Except.bind]
  obtain ⟨b, e, s, hb, he2, hs, hcfg⟩ := getNetworksConfig_ok_parts urls cfg hok
  subst hcfg
  have hbnb := acceptChain_ok .BNB urls.bnb b hb
  have heth := acceptChain_ok .ETH urls.eth e he2
  have hsol := acceptChain_ok .SOL urls.sol s hs
  refine ⟨hrej, ?_, ?_, ?_, ?_, ?_, ?_⟩
  · intro sb hsb
    rcases hbnb with ⟨hn, _⟩ | ⟨sb', hsome, hne, hl⟩
    · rw [hn] at hsb; cases hsb
    · rw [hsome] at hsb
      injection hsb with hsb
      subst hsb
      subst hl
      exact ⟨hne, by simp [exerciseChain, findChainRpc]⟩
  · intro se hse
    rcases heth with ⟨hn, _⟩ | ⟨se', hsome, hne, hl⟩
    · rw [hn] at hse; cases hse
    · rw [hsome] at hse
      injection hse with hse
      subst hse
      subst hl
      rcases hbnb with ⟨_, hbl⟩ | ⟨sb', _, _, hbl⟩ <;> subst hbl <;>
        exact ⟨hne, by simp [exerciseChain, findChainRpc]⟩
  · intro ss hss
    rcases hsol with ⟨hn, _⟩ | ⟨ss', hsome, hne, hl⟩
    · rw [hn] at hss; cases hss
    · rw [hsome] at hss
      injection hss with hss
      subst hss
      subst hl
      rcases hbnb with ⟨_, hbl⟩ | ⟨sb', _, _, hbl⟩ <;>
        rcases heth with ⟨_, hel⟩ | ⟨se', _, _, hel⟩ <;>
          subst hbl <;> subst hel <;>
            exact ⟨hne, by simp [exerciseChain, findChainRpc]⟩
  · intro hn
    rcases hbnb with ⟨_, hbl⟩ | ⟨sb', hsome, _, _⟩
    · subst hbl
      rcases heth with ⟨_, hel⟩ | ⟨se', _, _, hel⟩ <;>
        rcases hsol with ⟨_, hsl⟩ | ⟨ss', _, _, hsl⟩ <;>
          subst hel <;> subst hsl <;> simp [exerciseChain, findChainRpc]
    · rw [hn] at hsome; cases hsome
  · intro hn
    rcases heth with ⟨_, hel⟩ | ⟨se', hsome, _, _⟩
    · subst hel
      rcases hbnb with ⟨_, hbl⟩ | ⟨sb', _, _, hbl⟩ <;>
        rcases hsol with ⟨_, hsl⟩ | ⟨ss', _, _, hsl⟩ <;>
          subst hbl <;> subst hsl <;> simp [exerciseChain, findChainRpc]
    · rw [hn] at hsome; cases hsome
  · intro hn
    rcases hsol with ⟨_, hsl⟩ | ⟨ss', hsome, _, _⟩
    · subst hsl
      rcases hbnb with ⟨_, hbl⟩ | ⟨sb', _, _, hbl⟩ <;>
        rcases heth with ⟨_, hel⟩ | ⟨se', _, _, hel⟩ <;>
          subst hbl <;> subst hel <;> simp [exerciseChain, findChainRpc]
    · rw [hn] at hsome; cases hsome

/-- Witness for C8: a config with a missing ETH URL builds, its supplied
chains are exercisable, the missing one errors only when exercised, and an
empty supplied URL is rejected at build time. -/
theorem rpc_validation_witness :
    (getNetworksConfig ⟨some "https://bnb.example", none, some "https://sol.example"⟩ =
      .ok [(Chain.BNB, "https://bnb.example"), (Chain.SOL, "https://sol.example")]) ∧
    (exerciseChain [(Chain.BNB, "https://bnb.example"),
        (Chain.SOL, "https://sol.example")] .ETH =
      .error (JsError.mk "No RPC URL configured for requested chain")) ∧
    (getNetworksConfig ⟨some "", some "https://eth.example", none⟩ =
      .error (JsError.mk "Invalid RPC URL")) := by
  have h := rpc_validation
      ⟨some "https://bnb.example", none, some "https://sol.example"⟩
      ⟨some "", some "https://eth.example", none⟩
      [(Chain.BNB, "https://bnb.example"), (Chain.SOL, "https://sol.example")]
      rfl (Or.inl rfl)
  exact ⟨rfl, h.2.2.2.2.2.1 rfl, h.1⟩
